import Mathlib

/-!
Verification of the CTEC summarizer's pure core against its specification.

The JavaScript sources (`main.js`, bundling two revisions of the pipeline, and
`print_course_row.js`) are shallowly embedded here: JavaScript strings become
`List Char`, nullable strings become `Option (List Char)`, and the stateful
browser loops are modelled as pure per-tick functions plus runs over finite
sample traces.  Each embedded definition mirrors one source function.
-/

namespace Ctec

/-! ## Character classes and basic string operations -/

/-- The whitespace set used by JavaScript `String.prototype.trim` and by the
`\s` regular-expression class (ECMA WhiteSpace together with LineTerminator). -/
def isJsWhitespace (c : Char) : Bool :=
  c = ' ' || c = '\t' || c = '\n' || c = '\r' || c = '\u000B' || c = '\u000C' ||
  c = '\u00A0' || c = '\u1680' || ('\u2000' ≤ c && c ≤ '\u200A') ||
  c = '\u2028' || c = '\u2029' || c = '\u202F' || c = '\u205F' ||
  c = '\u3000' || c = '\uFEFF'

/-- JavaScript `s.trim()`: strip leading and trailing whitespace. -/
def jsTrim (l : List Char) : List Char :=
  ((l.dropWhile isJsWhitespace).reverse.dropWhile isJsWhitespace).reverse

/-- ASCII lowercase of one character (the source only compares lowercased text
against ASCII marker strings). -/
def lowerChar (c : Char) : Char :=
  if 'A' ≤ c && c ≤ 'Z' then Char.ofNat (c.toNat + 32) else c

/-- ASCII uppercase of one character (the canonicalisation performed by a
case-insensitive, non-unicode JavaScript regular expression on ASCII input). -/
def upperChar (c : Char) : Char :=
  if 'a' ≤ c && c ≤ 'z' then Char.ofNat (c.toNat - 32) else c

/-- JavaScript `s.toLowerCase()` on the ASCII fragment. -/
def jsToLower (l : List Char) : List Char := l.map lowerChar

/-- `startsWithL t pat`: does `t` start with `pat`?  (JS `t.startsWith(pat)`.) -/
def startsWithL : List Char → List Char → Bool
  | _, [] => true
  | [], _ :: _ => false
  | c :: t, p :: ps => c = p && startsWithL t ps

/-- JavaScript `t.indexOf(pat)` as an `Option Nat` (`none` models `-1`):
index of the first occurrence of `pat` in `t`. -/
def findSub : List Char → List Char → Option Nat
  | [], pat => if startsWithL [] pat then some 0 else none
  | c :: rest, pat =>
      if startsWithL (c :: rest) pat then some 0
      else (findSub rest pat).map (· + 1)

/-- JavaScript `t.includes(pat)`. -/
def containsSub (t pat : List Char) : Bool := (findSub t pat).isSome

/-! ## Boundary extraction (`sectionBetween`, `extractEssayToDemographics`) -/

/-- `sectionBetween(text, startMarker, endMarker)` from `main.js`:
find the start marker; take everything after it up to the first occurrence of
the end marker at or after that point (or to the end of the text when the end
marker is `null` or absent); trim the chunk.  `none` models the source's
`null` return when the start marker is missing. -/
def sectionBetween (text startMarker : List Char) (endMarker : Option (List Char)) :
    Option (List Char) :=
  match findSub text startMarker with
  | none => none
  | some start =>
      let afterStart := start + startMarker.length
      let stop : Option Nat :=
        match endMarker with
        | some em => (findSub (text.drop afterStart) em).map (· + afterStart)
        | none => none
      match stop with
      | none => some (jsTrim (text.drop afterStart))
      | some endIdx => some (jsTrim ((text.take endIdx).drop afterStart))

/-- JavaScript `a || b` on nullable strings: `a` unless `a` is `null` or the
empty string (both falsy), in which case `b`. -/
def jsOrStr (a b : Option (List Char)) : Option (List Char) :=
  match a with
  | some s => if s.isEmpty then b else some s
  | none => b

def essayQuestionsMark : List Char := "ESSAY QUESTIONS".toList

def demographicsMark : List Char := "DEMOGRAPHICS".toList

def creationDateMark : List Char := "Creation Date".toList

def downloadPdfMark : List Char := "Download PDF".toList

/-- `extractEssayToDemographics(fullText)` from `main.js`: the four fallback
marker chains combined with JavaScript `||`. -/
def extractEssayToDemographics (fullText : List Char) : Option (List Char) :=
  jsOrStr (sectionBetween fullText essayQuestionsMark (some demographicsMark))
    (jsOrStr (sectionBetween fullText essayQuestionsMark (some creationDateMark))
      (jsOrStr (sectionBetween fullText essayQuestionsMark (some downloadPdfMark))
        (sectionBetween fullText essayQuestionsMark none)))

/-! ## Input parsing (`parseCourseArg`) -/

/-- `[A-Z_]`, the subject character class of the course regular expression. -/
def isSubjectChar (c : Char) : Bool := ('A' ≤ c && c ≤ 'Z') || c = '_'

/-- `[0-9]` (`\d`). -/
def isDigitChar (c : Char) : Bool := '0' ≤ c && c ≤ '9'

/-- `[A-Z0-9]`, the class of the optional dash suffix. -/
def isSuffixChar (c : Char) : Bool := ('A' ≤ c && c ≤ 'Z') || ('0' ≤ c && c ≤ '9')

/-- The anchored match `raw.match(/^([A-Z_]+)\s+([0-9]+(?:-[A-Z0-9]+)?)$/)`.
Because the character classes of consecutive regex pieces are disjoint, the
greedy match is the unique decomposition into a maximal subject run, a
nonempty whitespace run, a maximal digit run, and an optional `-SUFFIX` tail;
the result is the pair of capture groups, `none` modelling a failed match. -/
def matchCourseRegex (raw : List Char) : Option (List Char × List Char) :=
  let subject := raw.takeWhile isSubjectChar
  let r1 := raw.dropWhile isSubjectChar
  let sp := r1.takeWhile isJsWhitespace
  let r2 := r1.dropWhile isJsWhitespace
  let digits := r2.takeWhile isDigitChar
  let r3 := r2.dropWhile isDigitChar
  if subject.isEmpty || sp.isEmpty || digits.isEmpty then none
  else
    match r3 with
    | [] => some (subject, digits)
    | '-' :: suf =>
        if !suf.isEmpty && suf.all isSuffixChar then
          some (subject, digits ++ '-' :: suf)
        else none
    | _ => none

/-- `argv.slice(2).join(" ")`. -/
def joinSpace : List (List Char) → List Char
  | [] => []
  | [x] => x
  | x :: y :: rest => x ++ ' ' :: joinSpace (y :: rest)

/-- The `{subject, number, raw}` record returned by `parseCourseArg`. -/
structure CourseQuery where
  subject : List Char
  number : List Char
  raw : List Char
deriving DecidableEq, Repr

/-- `parseCourseArg(argv)` from `main.js`: join the arguments after the first
two with single spaces, trim, match the course regex, and default the number
suffix to `-0` when absent.  `none` models both thrown errors (missing and
invalid input). -/
def parseCourseArg (argv : List (List Char)) : Option CourseQuery :=
  let raw := jsTrim (joinSpace (argv.drop 2))
  if raw.isEmpty then none
  else
    match matchCourseRegex raw with
    | none => none
    | some (subject, numberRaw) =>
        let number := if numberRaw.contains '-' then numberRaw else numberRaw ++ ['-', '0']
        some { subject := subject, number := number, raw := raw }

/-! ## Text normalisation (`norm`) and filename sanitisation -/

/-- `s.replace(/\s+/g, " ")`: each maximal whitespace run becomes one space.
The boolean argument records whether the previous character was whitespace
(i.e. whether we are inside a run that already emitted its space). -/
def collapseWsAux : Bool → List Char → List Char
  | _, [] => []
  | inRun, c :: rest =>
      if isJsWhitespace c then
        if inRun then collapseWsAux true rest
        else ' ' :: collapseWsAux true rest
      else c :: collapseWsAux false rest

/-- `norm(s)` from `main.js`: `(s || "").replace(/\s+/g, " ").trim()`. -/
def norm (s : List Char) : List Char := jsTrim (collapseWsAux false s)

/-- `\w`: `[A-Za-z0-9_]`. -/
def isWordChar (c : Char) : Bool :=
  ('A' ≤ c && c ≤ 'Z') || ('a' ≤ c && c ≤ 'z') || ('0' ≤ c && c ≤ '9') || c = '_'

/-- The class kept by `safeFilename`: word characters, dots and dashes. -/
def isSafeFilenameChar (c : Char) : Bool := isWordChar c || c = '.' || c = '-'

/-- `s.replace(/[^\w.-]+/g, "_")`: each maximal run of characters outside the
safe class becomes a single underscore. -/
def sanitizeAux : Bool → List Char → List Char
  | _, [] => []
  | inRun, c :: rest =>
      if isSafeFilenameChar c then c :: sanitizeAux false rest
      else if inRun then sanitizeAux true rest
      else '_' :: sanitizeAux true rest

/-- `safeFilename(s)` from `main.js`:
`(s || "output").replace(/[^\w.-]+/g, "_").slice(0, 180)`. -/
def safeFilename (s : List Char) : List Char :=
  (sanitizeAux false (if s.isEmpty then "output".toList else s)).take 180

/-- `path.join(outDir, name)` for a second segment that contains no path
separator (as produced by `safeFilename` plus the `.json` extension): the
segments joined with a single slash. -/
def pathJoin (outDir name : List Char) : List Char := outDir ++ '/' :: name

/-- The path written by `writeJson(outDir, baseName, obj)` in `main.js`:
`path.join(outDir, safeFilename(baseName) + ".json")`. -/
def writeJsonPath (outDir baseName : List Char) : List Char :=
  pathJoin outDir (safeFilename baseName ++ ".json".toList)

/-! ## Course-row scan and evaluation-row picker -/

/-- The course-row loop of `main()` (both program versions): scan the result
rows in document order and return the first whose normalised text starts with
`number + ":"`, keeping that normalised text (`targetRowText`). -/
def findCourseRow (number : List Char) : List (List Char) → Option (List Char)
  | [] => none
  | rowRaw :: rest =>
      let rowText := norm rowRaw
      if startsWithL rowText (number ++ [':']) then some rowText
      else findCourseRow number rest

/-- `looksLikeTerm(termText)` from `main.js`:
`/^\d{4}\s+(Fall|Wintr|Sprng|Summr)$/i.test(termText)`.  Decomposed as exactly
four leading digits, a nonempty whitespace run, and a season word compared
ASCII-case-insensitively against the four alternatives. -/
def looksLikeTerm (termText : List Char) : Bool :=
  let d := termText.take 4
  let rest := termText.drop 4
  let sp := rest.takeWhile isJsWhitespace
  let season := (rest.dropWhile isJsWhitespace).map upperChar
  d.length == 4 && d.all isDigitChar && !sp.isEmpty &&
    (season = "FALL".toList || season = "WINTR".toList ||
     season = "SPRNG".toList || season = "SUMMR".toList)

/-- The evaluation-row loop of `main()` (second program version): each row is
its list of `td` cell texts; rows with fewer than two cells are skipped, the
first two cells are normalised, rows whose first cell fails `looksLikeTerm`
are skipped, and the first surviving row's `(termText, descText)` is kept. -/
def pickFirstRealRow : List (List (List Char)) → Option (List Char × List Char)
  | [] => none
  | cells :: rest =>
      match cells with
      | c0 :: c1 :: _ =>
          let termText := norm c0
          let descText := norm c1
          if looksLikeTerm termText then some (termText, descText)
          else pickFirstRealRow rest
      | _ => pickFirstRealRow rest

/-- The per-row candidate test of the evaluation-row loop, as a single
function: `some (termText, descText)` exactly when the row has at least two
cells and its normalised first cell matches the term pattern. -/
def evalRowCandidate (cells : List (List Char)) : Option (List Char × List Char) :=
  match cells with
  | c0 :: c1 :: _ =>
      if looksLikeTerm (norm c0) then some (norm c0, norm c1) else none
  | _ => none

/-! ## Report gate (`waitForReport`) -/

inductive GateState
  | pending
  | authInterstitial
  | loaded
deriving DecidableEq, Repr

/-- The `hasReport` test of `waitForReport` / `waitForEitherLoginOrReport`. -/
def hasReportMarkers (t : List Char) : Bool :=
  containsSub t ("Student Report for".toList) ||
  containsSub t ("Responses Received".toList) ||
  containsSub t ("Course and Teacher Evaluations".toList) ||
  containsSub t ("ESSAY QUESTIONS".toList)

/-- The `looksLikeLogin` test: applied to the lowercased body text and the
lowercased page address. -/
def looksLikeLoginMarkers (tl url : List Char) : Bool :=
  containsSub tl ("netid".toList) || containsSub tl ("sign in".toList) ||
  containsSub tl ("duo".toList) || containsSub tl ("two-factor".toList) ||
  containsSub url ("shibboleth".toList) || containsSub url ("login".toList) ||
  containsSub url ("sso".toList)

/-- One polling tick of `waitForReport`, as a pure state classifier over the
rendered body text and the page address: report presence is checked first and
yields the terminal `loaded` state; otherwise login markers yield
`authInterstitial`; otherwise the tick stays `pending`. -/
def waitForReportTick (bodyText pageUrl : List Char) : GateState :=
  if hasReportMarkers bodyText then GateState.loaded
  else if looksLikeLoginMarkers (jsToLower bodyText) (jsToLower pageUrl) then
    GateState.authInterstitial
  else GateState.pending

/-- The `waitForReport` loop over a finite trace of `(bodyText, pageUrl)`
samples: the index of the tick at which the loop returns (the first `loaded`
tick), `none` when the trace ends with the loop still polling. -/
def waitForReportRun : List (List Char × List Char) → Option Nat
  | [] => none
  | (t, u) :: rest =>
      if waitForReportTick t u = GateState.loaded then some 0
      else (waitForReportRun rest).map (· + 1)

/-! ## Course-not-found handling (both program versions) -/

inductive MissingCourseBehavior
  | throwsCourseNotFound (message : List Char)
  | returnsNormally
deriving DecidableEq, Repr

/-- The course-not-found branch of the second program's `main()`
(`if (!targetLink) throw new Error(...)`): when no row matches, the thrown
error unwinds the `try` block (the `finally` clause closes the context) and
reaches `main().catch`, which reports it and exits nonzero.  `none` when a
row matched and the branch is not taken. -/
def missingCourseBehavior (number : List Char) (rows : List (List Char)) :
    Option MissingCourseBehavior :=
  match findCourseRow number rows with
  | some _ => none
  | none =>
      some (MissingCourseBehavior.throwsCourseNotFound
        ("Could not find course ".toList ++ number))

/-- The course-not-found branch of the first program's `main()`
(`console.error(...); await context.close(); return;`): the failure is logged,
the context closed, and `main` returns normally, so the run completes without
an error and the process exits zero. -/
def missingCourseBehaviorFirst (number : List Char) (rows : List (List Char)) :
    Option MissingCourseBehavior :=
  match findCourseRow number rows with
  | some _ => none
  | none => some MissingCourseBehavior.returnsNormally

/-! ## Lemmas on substring search -/

theorem startsWithL_iff_take (pat : List Char) :
    ∀ t : List Char, startsWithL t pat = true ↔ t.take pat.length = pat := by
  induction pat with
  | nil => intro t; simp [startsWithL]
  | cons p ps ih =>
      intro t
      cases t with
      | nil => simp [startsWithL]
      | cons c t' =>
          simp only [startsWithL, List.length_cons, List.take_succ_cons,
            Bool.and_eq_true, decide_eq_true_eq, List.cons.injEq]
          exact and_congr Iff.rfl (ih t')

theorem findSub_eq_none_iff (pat : List Char) :
    ∀ t : List Char, findSub t pat = none ↔ ∀ i, startsWithL (t.drop i) pat = false := by
  intro t
  induction t with
  | nil =>
      by_cases h : startsWithL [] pat = true
      · simp only [findSub, if_pos h]
        constructor
        · intro hc; simp at hc
        · intro hall
          have h0 := hall 0
          rw [List.drop_nil] at h0
          rw [h0] at h; simp at h
      · have h' : startsWithL [] pat = false := by simpa using h
        simp only [findSub, if_neg h]
        constructor
        · intro _ i; rw [List.drop_nil]; exact h'
        · intro _; trivial
  | cons c rest ih =>
      by_cases h : startsWithL (c :: rest) pat = true
      · simp only [findSub, if_pos h]
        constructor
        · intro hc; simp at hc
        · intro hall
          have h0 := hall 0
          rw [List.drop_zero] at h0
          rw [h0] at h; simp at h
      · have h' : startsWithL (c :: rest) pat = false := by simpa using h
        simp only [findSub, if_neg h, Option.map_eq_none']
        rw [ih]
        constructor
        · intro hall i
          cases i with
          | zero => rw [List.drop_zero]; exact h'
          | succ j => rw [List.drop_succ_cons]; exact hall j
        · intro hall j
          have := hall (j + 1)
          rw [List.drop_succ_cons] at this
          exact this

theorem findSub_eq_some_iff (pat : List Char) :
    ∀ t (i : Nat), findSub t pat = some i ↔
      (startsWithL (t.drop i) pat = true ∧ ∀ j, j < i → startsWithL (t.drop j) pat = false) := by
  intro t
  induction t with
  | nil =>
      intro i
      by_cases h : startsWithL [] pat = true
      · simp only [findSub, if_pos h, List.drop_nil]
        constructor
        · intro hi
          have hi0 : i = 0 := (Option.some.inj hi).symm
          subst hi0
          exact ⟨h, fun j hj => absurd hj (Nat.not_lt_zero j)⟩
        · rintro ⟨-, hall⟩
          by_contra hne
          have hpos : 0 < i := by
            rcases Nat.eq_zero_or_pos i with h0 | h0
            · subst h0; exact (hne rfl).elim
            · exact h0
          have h0 := hall 0 hpos
          rw [h0] at h; simp at h
      · have h' : startsWithL [] pat = false := by simpa using h
        simp only [findSub, if_neg h, List.drop_nil]
        constructor
        · intro hc; simp at hc
        · rintro ⟨hocc, -⟩
          rw [h'] at hocc; simp at hocc
  | cons c rest ih =>
      intro i
      by_cases h : startsWithL (c :: rest) pat = true
      · simp only [findSub, if_pos h]
        constructor
        · intro hi
          have hi0 : i = 0 := (Option.some.inj hi).symm
          subst hi0
          rw [List.drop_zero]
          exact ⟨h, fun j hj => absurd hj (Nat.not_lt_zero j)⟩
        · rintro ⟨-, hall⟩
          by_contra hne
          have hpos : 0 < i := by
            rcases Nat.eq_zero_or_pos i with h0 | h0
            · subst h0; exact (hne rfl).elim
            · exact h0
          have h0 := hall 0 hpos
          rw [List.drop_zero] at h0
          rw [h0] at h; simp at h
      · have h' : startsWithL (c :: rest) pat = false := by simpa using h
        simp only [findSub, if_neg h]
        constructor
        · intro hmap
          rcases Option.map_eq_some'.mp hmap with ⟨i', hi', rfl⟩
          rcases (ih i').mp hi' with ⟨hocc, hall⟩
          refine ⟨by rw [List.drop_succ_cons]; exact hocc, ?_⟩
          intro j hj
          cases j with
          | zero => rw [List.drop_zero]; exact h'
          | succ j' =>
              rw [List.drop_succ_cons]
              exact hall j' (Nat.lt_of_succ_lt_succ hj)
        · rintro ⟨hocc, hall⟩
          cases i with
          | zero =>
              rw [List.drop_zero] at hocc
              rw [hocc] at h'; simp at h'
          | succ i' =>
              have hrest : findSub rest pat = some i' := by
                rw [ih]
                refine ⟨by rw [List.drop_succ_cons] at hocc; exact hocc, ?_⟩
                intro j hj
                have := hall (j + 1) (Nat.succ_lt_succ hj)
                rw [List.drop_succ_cons] at this
                exact this
              rw [hrest, Option.map_some']

/-- No proper nonempty suffix of `pat` is also a prefix of `pat`.  Both
extraction markers enjoy this property, which rules out occurrences of a
marker straddling a concatenation boundary. -/
def Unbordered (pat : List Char) : Prop :=
  ∀ k, k < pat.length → 0 < k → pat.drop k ≠ pat.take (pat.length - k)

instance (pat : List Char) : Decidable (Unbordered pat) := by
  unfold Unbordered; infer_instance

theorem no_occurrence_before (a pat b : List Char)
    (hno : ∀ i, startsWithL (a.drop i) pat = false) (hub : Unbordered pat) :
    ∀ j, j < a.length → startsWithL ((a ++ pat ++ b).drop j) pat = false := by
  intro j hj
  by_contra hocc
  simp only [Bool.not_eq_false] at hocc
  rw [startsWithL_iff_take] at hocc
  have hdropj : (a ++ pat ++ b).drop j = a.drop j ++ (pat ++ b) := by
    rw [List.append_assoc, List.drop_append_of_le_length (Nat.le_of_lt hj)]
  rw [hdropj] at hocc
  have hklen : (a.drop j).length = a.length - j := List.length_drop j a
  by_cases hle : pat.length ≤ (a.drop j).length
  · rw [List.take_append_of_le_length hle] at hocc
    have hsw : startsWithL (a.drop j) pat = true := (startsWithL_iff_take pat _).mpr hocc
    rw [hno j] at hsw
    exact absurd hsw (by simp)
  · push_neg at hle
    have hk0 : 0 < (a.drop j).length := by omega
    have htake2 : (pat ++ b).take (pat.length - (a.drop j).length)
        = pat.take (pat.length - (a.drop j).length) :=
      List.take_append_of_le_length (by omega)
    rw [List.take_append_eq_append_take,
      List.take_of_length_le (Nat.le_of_lt hle), htake2] at hocc
    have hdrop := congrArg (List.drop (a.drop j).length) hocc
    rw [List.drop_left] at hdrop
    exact hub (a.drop j).length hle hk0 hdrop.symm

/-- The first occurrence of an unbordered `pat` in `a ++ pat ++ b`, when `pat`
does not occur in `a`, is exactly at position `a.length`. -/
theorem findSub_boundary (a pat b : List Char)
    (hno : findSub a pat = none) (hub : Unbordered pat) :
    findSub (a ++ pat ++ b) pat = some a.length := by
  rw [findSub_eq_some_iff]
  constructor
  · rw [List.append_assoc, List.drop_left, startsWithL_iff_take,
      List.take_append_of_le_length (Nat.le_refl pat.length), List.take_length]
  · exact no_occurrence_before a pat b ((findSub_eq_none_iff pat a).mp hno) hub

/-! ## Behaviour of the extraction chains -/

theorem sectionBetween_some_some (text sm em : List Char) (i j : Nat)
    (h1 : findSub text sm = some i)
    (h2 : findSub (text.drop (i + sm.length)) em = some j) :
    sectionBetween text sm (some em)
      = some (jsTrim ((text.take (j + (i + sm.length))).drop (i + sm.length))) := by
  simp only [sectionBetween, h1, h2, Option.map_some']

theorem jsOrStr_of_nonEmpty (a : List Char) (b : Option (List Char)) (h : a ≠ []) :
    jsOrStr (some a) b = some a := by
  simp only [jsOrStr, List.isEmpty_eq_true, if_neg h]

/-- The amended first-chain property: when the start marker does not occur in
the material before it, the payload does not itself contain the first end
marker, and the payload does not trim to the empty string, the first marker
chain yields exactly the trimmed payload and short-circuits the remaining
chains. -/
theorem extract_first_chain (pre payload suf : List Char)
    (hpre : findSub pre essayQuestionsMark = none)
    (hpay : findSub payload demographicsMark = none)
    (htrim : jsTrim payload ≠ []) :
    extractEssayToDemographics
        (pre ++ essayQuestionsMark ++ payload ++ demographicsMark ++ suf)
      = some (jsTrim payload) := by
  have hubEQ : Unbordered essayQuestionsMark := by decide
  have hubDEM : Unbordered demographicsMark := by decide
  set text := pre ++ essayQuestionsMark ++ payload ++ demographicsMark ++ suf with htext
  have htext1 : text
      = pre ++ essayQuestionsMark ++ (payload ++ demographicsMark ++ suf) := by
    simp only [htext, List.append_assoc]
  have h1 : findSub text essayQuestionsMark = some pre.length := by
    rw [htext1]
    exact findSub_boundary pre essayQuestionsMark _ hpre hubEQ
  have hlenEQ : pre.length + essayQuestionsMark.length
      = (pre ++ essayQuestionsMark).length := (List.length_append _ _).symm
  have hdrop : text.drop (pre.length + essayQuestionsMark.length)
      = payload ++ demographicsMark ++ suf := by
    rw [htext1, hlenEQ, List.drop_left]
  have h2 : findSub (text.drop (pre.length + essayQuestionsMark.length)) demographicsMark
      = some payload.length := by
    rw [hdrop]
    exact findSub_boundary payload demographicsMark suf hpay hubDEM
  have htext2 : text
      = ((pre ++ essayQuestionsMark) ++ payload) ++ (demographicsMark ++ suf) := by
    simp only [htext, List.append_assoc]
  have hlen2 : payload.length + (pre.length + essayQuestionsMark.length)
      = ((pre ++ essayQuestionsMark) ++ payload).length := by
    simp only [List.length_append]
    omega
  have htake : (text.take (payload.length + (pre.length + essayQuestionsMark.length))).drop
      (pre.length + essayQuestionsMark.length) = payload := by
    rw [htext2, hlen2, List.take_left, hlenEQ, List.drop_left]
  have hchain1 : sectionBetween text essayQuestionsMark (some demographicsMark)
      = some (jsTrim payload) := by
    rw [sectionBetween_some_some text essayQuestionsMark demographicsMark
      pre.length payload.length h1 h2, htake]
  unfold extractEssayToDemographics
  rw [hchain1]
  exact jsOrStr_of_nonEmpty _ _ htrim

theorem jsOrStr_eq_none_then (a b : Option (List Char)) (h : jsOrStr a b = none) :
    b = none := by
  cases a with
  | none => exact h
  | some s =>
      by_cases hs : s.isEmpty
      · simpa [jsOrStr, hs] using h
      · simp [jsOrStr, hs] at h

/-- C1 (amended): for text of the form
`prefix ++ "ESSAY QUESTIONS" ++ payload ++ "DEMOGRAPHICS" ++ suffix` where
"ESSAY QUESTIONS" does not occur in the prefix, "DEMOGRAPHICS" does not occur
in the payload, and the payload does not trim to the empty string,
`extractEssayToDemographics` returns exactly the payload trimmed — even when
the payload contains the later fallback end markers "Creation Date" or
"Download PDF" as substrings: the first chain succeeds and short-circuits the
remaining chains. -/
theorem C1_first_chain_payload (pre payload suf : List Char)
    (hpre : findSub pre essayQuestionsMark = none)
    (hpay : findSub payload demographicsMark = none)
    (htrim : jsTrim payload ≠ []) :
    extractEssayToDemographics
        (pre ++ essayQuestionsMark ++ payload ++ demographicsMark ++ suf)
      = some (jsTrim payload) :=
  extract_first_chain pre payload suf hpre hpay htrim

/-- Witness for `C1_first_chain_payload`: a payload containing both later
fallback end markers as substrings is still delimited by the first chain. -/
theorem C1_first_chain_payload_witness :
    findSub ("Intro ".toList) essayQuestionsMark = none ∧
    findSub (" see Creation Date and Download PDF here ".toList) demographicsMark = none ∧
    jsTrim (" see Creation Date and Download PDF here ".toList) ≠ [] ∧
    extractEssayToDemographics
        ("Intro ".toList ++ essayQuestionsMark ++
          " see Creation Date and Download PDF here ".toList ++ demographicsMark ++
          "tail".toList)
      = some (jsTrim (" see Creation Date and Download PDF here ".toList)) :=
  ⟨by decide, by decide, by decide,
    C1_first_chain_payload _ _ _ (by decide) (by decide) (by decide)⟩

/-- C1 counterexample to the claim as stated: at `prefix = ""`,
`payload = " "`, `suffix = ""` the claim's hypothesis holds ("ESSAY QUESTIONS"
does not occur in the prefix) but extraction returns "DEMOGRAPHICS", not the
trimmed payload ""; the first chain's trimmed chunk is empty, which is falsy
in JavaScript, so the `||` chain falls through to the second chain, whose end
marker "Creation Date" is absent, and that chain runs to the end of the text. -/
theorem C1_counterexample :
    findSub ([] : List Char) essayQuestionsMark = none ∧
    jsTrim [' '] = [] ∧
    extractEssayToDemographics
        (([] : List Char) ++ essayQuestionsMark ++ [' '] ++ demographicsMark ++ ([] : List Char))
      ≠ some (jsTrim [' ']) ∧
    extractEssayToDemographics
        (([] : List Char) ++ essayQuestionsMark ++ [' '] ++ demographicsMark ++ ([] : List Char))
      = some demographicsMark := by decide

/-- C2: `extractEssayToDemographics` returns null exactly when the text does
not contain the substring "ESSAY QUESTIONS"; whenever the start marker is
present the result is a (possibly empty) string, and the empty string is a
possible output distinct from null (witnessed by the text "ESSAY QUESTIONS"
itself). -/
theorem C2_null_iff_no_start_marker :
    (∀ t : List Char,
      extractEssayToDemographics t = none ↔ containsSub t essayQuestionsMark = false) ∧
    extractEssayToDemographics essayQuestionsMark = some [] := by
  constructor
  · intro t
    cases h : findSub t essayQuestionsMark with
    | none =>
        simp [extractEssayToDemographics, sectionBetween, jsOrStr, containsSub, h]
    | some i =>
        have hlast : sectionBetween t essayQuestionsMark none
            = some (jsTrim (t.drop (i + essayQuestionsMark.length))) := by
          simp [sectionBetween, h]
        constructor
        · intro hc
          exfalso
          unfold extractEssayToDemographics at hc
          have h2 := jsOrStr_eq_none_then _ _ hc
          have h3 := jsOrStr_eq_none_then _ _ h2
          have h4 := jsOrStr_eq_none_then _ _ h3
          rw [hlast] at h4
          simp at h4
        · intro hc
          simp only [containsSub, h, Option.isSome_some] at hc
          exact absurd hc (by simp)
  · decide

/-! ## Claims about input parsing -/

/-- C3: on every well-formed input (one that matches the course regular
expression), `parseCourseArg` defaults a suffix-less number to `NUMBER-0` and
preserves an existing `-SUFFIX` unchanged; and every successful parse result
has a number containing a `-` component. -/
theorem C3_suffix_defaulting :
    (∀ (argv : List (List Char)) (s n : List Char),
      matchCourseRegex (jsTrim (joinSpace (argv.drop 2))) = some (s, n) →
      parseCourseArg argv = some
        { subject := s,
          number := if n.contains '-' then n else n ++ ['-', '0'],
          raw := jsTrim (joinSpace (argv.drop 2)) }) ∧
    (∀ (argv : List (List Char)) (q : CourseQuery),
      parseCourseArg argv = some q → q.number.contains '-' = true) := by
  constructor
  · intro argv s n h
    have hraw : (jsTrim (joinSpace (argv.drop 2))).isEmpty = false := by
      cases he : (jsTrim (joinSpace (argv.drop 2))).isEmpty
      · rfl
      · exfalso
        have : jsTrim (joinSpace (argv.drop 2)) = [] := by
          simpa [List.isEmpty_eq_true] using he
        rw [this] at h
        simp [matchCourseRegex] at h
    simp only [parseCourseArg, hraw, Bool.false_eq_true, if_false, h]
  · intro argv q h
    simp only [parseCourseArg] at h
    by_cases he : (jsTrim (joinSpace (argv.drop 2))).isEmpty
    · rw [if_pos he] at h
      exact absurd h (by simp)
    · rw [if_neg he] at h
      cases hm : matchCourseRegex (jsTrim (joinSpace (argv.drop 2))) with
      | none => rw [hm] at h; exact absurd h (by simp)
      | some p =>
          rcases p with ⟨s, n⟩
          rw [hm] at h
          have hq : q.number = if n.contains '-' then n else n ++ ['-', '0'] := by
            cases h
            rfl
          rw [hq]
          by_cases hd : n.contains '-'
          · rw [if_pos hd]; exact hd
          · rw [if_neg hd]
            have hm2 : '-' ∈ n ++ ['-', '0'] := by
              apply List.mem_append_right
              exact List.mem_cons_self _ _
            exact List.elem_eq_true_of_mem hm2

/-- Witness for `C3_suffix_defaulting`: the concrete run
`node main.js "COMP_SCI 212"` parses to number `212-0`. -/
theorem C3_suffix_defaulting_witness :
    matchCourseRegex (jsTrim (joinSpace
        (["node".toList, "main.js".toList, "COMP_SCI 212".toList].drop 2)))
      = some ("COMP_SCI".toList, "212".toList) ∧
    parseCourseArg ["node".toList, "main.js".toList, "COMP_SCI 212".toList]
      = some { subject := "COMP_SCI".toList, number := "212-0".toList,
               raw := "COMP_SCI 212".toList } := by
  refine ⟨by decide, ?_⟩
  have h := C3_suffix_defaulting.1
    ["node".toList, "main.js".toList, "COMP_SCI 212".toList]
    ("COMP_SCI".toList) ("212".toList) (by decide)
  exact h.trans (by decide)

/-- C8: `parseCourseArg` joins the arguments after the program and script
names with single spaces before matching, so supplying the course identifier
as one argument equal to that join gives exactly the same parse result as
supplying the parts as separate arguments. -/
theorem C8_join_invariance :
    ∀ (a b : List Char) (parts : List (List Char)),
      parseCourseArg (a :: b :: [joinSpace parts]) = parseCourseArg (a :: b :: parts) :=
  fun _ _ _ => rfl

/-! ## Claims about the row scans -/

/-- C4: the course-row scan matches by a strict prefix-plus-colon test on the
normalised row text: every selected row's text starts with `number + ":"`,
the row "212-0: Intro to Programming" matches the requested number "212-0",
and the row "2120-0: Advanced Stuff" alone does not match it. -/
theorem C4_prefix_colon_matching :
    (∀ (number : List Char) (rows : List (List Char)) (r : List Char),
      findCourseRow number rows = some r → startsWithL r (number ++ [':']) = true) ∧
    findCourseRow ("212-0".toList)
        ["2120-0: Advanced Stuff".toList, "212-0: Intro to Programming".toList]
      = some ("212-0: Intro to Programming".toList) ∧
    findCourseRow ("212-0".toList) ["2120-0: Advanced Stuff".toList] = none := by
  refine ⟨?_, by decide, by decide⟩
  intro number rows
  induction rows with
  | nil => intro r h; simp [findCourseRow] at h
  | cons rowRaw rest ih =>
      intro r h
      simp only [findCourseRow] at h
      by_cases hsw : startsWithL (norm rowRaw) (number ++ [':']) = true
      · rw [if_pos hsw] at h
        cases h
        exact hsw
      · rw [if_neg hsw] at h
        exact ih r h

/-- Witness for `C4_prefix_colon_matching`: the selected row of the concrete
scan indeed starts with `"212-0" + ":"`. -/
theorem C4_prefix_colon_matching_witness :
    startsWithL ("212-0: Intro to Programming".toList) ("212-0".toList ++ [':']) = true :=
  C4_prefix_colon_matching.1 ("212-0".toList)
    ["2120-0: Advanced Stuff".toList, "212-0: Intro to Programming".toList]
    ("212-0: Intro to Programming".toList) (by decide)

/-- C9: the evaluation-row scan skips every row with fewer than two cells
before the term pattern is applied, so a single-cell row whose text matches
the term pattern (e.g. "2024 Fall" alone) is never selected. -/
theorem C9_short_rows_skipped :
    (∀ (c : List Char) (rows : List (List (List Char))),
      pickFirstRealRow ([c] :: rows) = pickFirstRealRow rows) ∧
    (∀ rows : List (List (List Char)),
      pickFirstRealRow (([] : List (List Char)) :: rows) = pickFirstRealRow rows) ∧
    looksLikeTerm (norm ("2024 Fall".toList)) = true ∧
    pickFirstRealRow [["2024 Fall".toList]] = none :=
  ⟨fun _ _ => rfl, fun _ => rfl, by decide, by decide⟩

/-- C5: the evaluation-row picker keeps exactly the candidate rows whose
normalised first cell matches the strict term pattern (among rows with a term
and a description cell) and returns the first such row in document order:
`pickFirstRealRow` equals "first element of the filtered candidates", the
first cells ["2024 Fall", "Header", "2025 Sprng", "Page 2 of 3"] filter to
exactly ["2024 Fall", "2025 Sprng"] in order, and the picker returns the
"2024 Fall" row. -/
theorem C5_picker_filters_and_takes_first :
    (∀ rows : List (List (List Char)),
      pickFirstRealRow rows = (rows.filterMap evalRowCandidate).head?) ∧
    (["2024 Fall".toList, "Header".toList, "2025 Sprng".toList,
        "Page 2 of 3".toList].filter (fun t => looksLikeTerm (norm t))
      = ["2024 Fall".toList, "2025 Sprng".toList]) ∧
    pickFirstRealRow
        [["2024 Fall".toList, "descA".toList], ["Header".toList, "descB".toList],
         ["2025 Sprng".toList, "descC".toList], ["Page 2 of 3".toList, "descD".toList]]
      = some ("2024 Fall".toList, "descA".toList) := by
  refine ⟨?_, by decide, by decide⟩
  intro rows
  induction rows with
  | nil => rfl
  | cons cells rest ih =>
      cases cells with
      | nil => simpa [pickFirstRealRow, List.filterMap_cons, evalRowCandidate] using ih
      | cons c0 tail =>
          cases tail with
          | nil => simpa [pickFirstRealRow, List.filterMap_cons, evalRowCandidate] using ih
          | cons c1 tail2 =>
              by_cases hterm : looksLikeTerm (norm c0) = true
              · simp [pickFirstRealRow, List.filterMap_cons, evalRowCandidate, hterm]
              · have hterm2 : looksLikeTerm (norm c0) = false := by simpa using hterm
                simpa [pickFirstRealRow, List.filterMap_cons, evalRowCandidate, hterm2]
                  using ih

/-! ## Claims about the report gate -/

/-- C6: in every polling tick of the report gate, report presence takes
precedence over the login-interstitial check: whenever the rendered text
contains a report-presence marker the tick is `loaded` and the polling loop
stops at that tick, even when authentication-interstitial markers are
simultaneously present in the text and the address (exhibited by a concrete
tick carrying both marker families). -/
theorem C6_report_precedence :
    (∀ t u : List Char, hasReportMarkers t = true →
      waitForReportTick t u = GateState.loaded) ∧
    (∀ (t u : List Char) (rest : List (List Char × List Char)),
      hasReportMarkers t = true → waitForReportRun ((t, u) :: rest) = some 0) ∧
    looksLikeLoginMarkers
        (jsToLower ("ESSAY QUESTIONS Please sign in with your NetID (Duo two-factor)".toList))
        (jsToLower ("https://idp.example.edu/shibboleth/sso/login".toList)) = true ∧
    waitForReportTick
        ("ESSAY QUESTIONS Please sign in with your NetID (Duo two-factor)".toList)
        ("https://idp.example.edu/shibboleth/sso/login".toList) = GateState.loaded := by
  have h1 : ∀ t u : List Char, hasReportMarkers t = true →
      waitForReportTick t u = GateState.loaded := by
    intro t u h
    simp [waitForReportTick, h]
  refine ⟨h1, ?_, by decide, by decide⟩
  intro t u rest h
  simp [waitForReportRun, h1 t u h]

/-- Witness for `C6_report_precedence`. -/
theorem C6_report_precedence_witness :
    waitForReportTick ("Responses Received: 41 of 70".toList)
      ("https://caesar.example.edu/login".toList) = GateState.loaded :=
  C6_report_precedence.1 _ _ (by decide)

/-! ## Claims about course-not-found handling -/

theorem findCourseRow_eq_none_iff (number : List Char) :
    ∀ rows : List (List Char), findCourseRow number rows = none ↔
      ∀ r ∈ rows, startsWithL (norm r) (number ++ [':']) = false := by
  intro rows
  induction rows with
  | nil => simp [findCourseRow]
  | cons rowRaw rest ih =>
      by_cases hsw : startsWithL (norm rowRaw) (number ++ [':']) = true
      · simp [findCourseRow, hsw]
      · have hsw2 : startsWithL (norm rowRaw) (number ++ [':']) = false := by
          simpa using hsw
        simp [findCourseRow, hsw2, ih]

/-- C7 counterexample to the claim as stated: in the first program version's
course-not-found branch, the run logs the failure, closes the context and
returns normally — it completes without a surfaced error, contradicting
"never completed as a success". -/
theorem C7_counterexample :
    findCourseRow ("212-0".toList) ["101-0: Data Structures".toList] = none ∧
    missingCourseBehaviorFirst ("212-0".toList) ["101-0: Data Structures".toList]
      = some MissingCourseBehavior.returnsNormally := by decide

/-- C7 (amended): when no result row's normalised text starts with
`number + ":"`, the course-row scan finds nothing; in the second program
version this makes the run fail with a thrown "Could not find course" error
that is surfaced to the caller (the `finally` clause releases the context and
the failure is reported as an error), while in the first program version the
same condition logs the failure, closes the context, and completes the run
normally without an error. -/
theorem C7_missing_course_behavior (number : List Char) (rows : List (List Char))
    (h : ∀ r ∈ rows, startsWithL (norm r) (number ++ [':']) = false) :
    findCourseRow number rows = none ∧
    missingCourseBehavior number rows
      = some (MissingCourseBehavior.throwsCourseNotFound
          ("Could not find course ".toList ++ number)) ∧
    missingCourseBehaviorFirst number rows = some MissingCourseBehavior.returnsNormally := by
  have hn : findCourseRow number rows = none :=
    (findCourseRow_eq_none_iff number rows).mpr h
  exact ⟨hn, by simp [missingCourseBehavior, hn], by simp [missingCourseBehaviorFirst, hn]⟩

/-- Witness for `C7_missing_course_behavior`. -/
theorem C7_missing_course_behavior_witness :
    missingCourseBehavior ("212-0".toList) ["101-0: Data Structures".toList]
      = some (MissingCourseBehavior.throwsCourseNotFound
          ("Could not find course ".toList ++ "212-0".toList)) :=
  (C7_missing_course_behavior ("212-0".toList) ["101-0: Data Structures".toList]
    (by decide)).2.1

/-! ## Claims about filename sanitisation and output paths -/

theorem sanitizeAux_all_safe :
    ∀ (flag : Bool) (l : List Char), (sanitizeAux flag l).all isSafeFilenameChar = true := by
  intro flag l
  induction l generalizing flag with
  | nil => rfl
  | cons c rest ih =>
      by_cases hc : isSafeFilenameChar c = true
      · simp [sanitizeAux, hc, List.all_cons, ih]
      · have hc2 : isSafeFilenameChar c = false := by simpa using hc
        cases flag
        · simp only [sanitizeAux, hc2, Bool.false_eq_true, if_false, List.all_cons, ih,
            Bool.and_true]
          decide
        · simp [sanitizeAux, hc2, ih]

/-- C10: `safeFilename` produces a name containing only word characters, dots
and dashes, of length at most 180; `writeJson` writes to the given output
directory joined with that sanitised name plus ".json", and no character of
that final name is a path separator, so the persisted file is always a direct
child of the output directory. -/
theorem C10_safe_filename_path :
    (∀ s : List Char, (safeFilename s).all isSafeFilenameChar = true) ∧
    (∀ s : List Char, (safeFilename s).length ≤ 180) ∧
    (∀ outDir base : List Char,
      writeJsonPath outDir base = outDir ++ '/' :: (safeFilename base ++ ".json".toList)) ∧
    (∀ (base : List Char) (c : Char),
      c ∈ safeFilename base ++ ".json".toList → c ≠ '/') := by
  have hall : ∀ s : List Char, (safeFilename s).all isSafeFilenameChar = true := by
    intro s
    unfold safeFilename
    rw [List.all_eq_true]
    intro c hcmem
    have hmem : c ∈ sanitizeAux false (if s.isEmpty then "output".toList else s) :=
      List.take_subset _ _ hcmem
    exact List.all_eq_true.mp (sanitizeAux_all_safe false _) c hmem
  refine ⟨hall, ?_, fun _ _ => rfl, ?_⟩
  · intro s
    unfold safeFilename
    rw [List.length_take]
    exact Nat.min_le_left _ _
  · intro base c hc heq
    subst heq
    rcases List.mem_append.mp hc with hc1 | hc2
    · have hsafe := List.all_eq_true.mp (hall base) '/' hc1
      simp [isSafeFilenameChar, isWordChar] at hsafe
    · simp at hc2

/-- Witness for `C10_safe_filename_path`. -/
theorem C10_safe_filename_path_witness :
    ('C' ∈ safeFilename ("COMP_SCI 212-0".toList) ++ ".json".toList) ∧ 'C' ≠ '/' :=
  ⟨by decide, C10_safe_filename_path.2.2.2 ("COMP_SCI 212-0".toList) 'C' (by decide)⟩

end Ctec
